import Mathlib

/-!
Verification of the resilient orchestration layer of the crypto-automation
worker: circuit breaker, rate limiter, retry wrapper, Telegram chunking and
the batch pipeline (handleRun), shallowly embedded from the TypeScript source.
Times are modelled as integers (milliseconds), effectful calls as explicit
outcome oracles, and the mutable class fields as records threaded through
state-passing functions.
-/

namespace CryptoAutomation

set_option maxRecDepth 40000

/-! ## Circuit breaker (src utils/http: class CircuitBreaker) -/

/-- The three states of the breaker, mirroring the string union
CLOSED | OPEN | HALF_OPEN in the source. -/
inductive CBState where
  | closed
  | opened
  | halfOpen
deriving Repr, DecidableEq

/-- The mutable fields of the CircuitBreaker class together with its two
constructor parameters. -/
structure CircuitBreaker where
  failures : Nat
  lastFailureTime : Int
  state : CBState
  failureThreshold : Nat
  resetTimeout : Int
deriving Repr, DecidableEq

/-- Errors surfaced by execute: either the distinguished breaker-open error
(the source throws a fresh Error with message Circuit breaker is OPEN) or the
wrapped operation error, rethrown as is. -/
inductive CBError where
  | breakerOpen
  | wrapped (e : String)
deriving Repr, DecidableEq

/-- onSuccess of the source: reset the failure counter and close. -/
def onSuccess (cb : CircuitBreaker) : CircuitBreaker :=
  { cb with failures := 0, state := .closed }

/-- onFailure of the source: bump the counter, stamp the failure time, and trip
to OPEN once the counter reaches the threshold. -/
def onFailure (cb : CircuitBreaker) (now : Int) : CircuitBreaker :=
  let f := cb.failures + 1
  { cb with
      failures := f
      lastFailureTime := now
      state := if cb.failureThreshold ≤ f then .opened else cb.state }

/-- The admission check at the top of execute: an OPEN breaker rejects the call
(none) unless the reset timeout has elapsed, in which case it moves to
HALF_OPEN before letting the call through. -/
def breakerGate (cb : CircuitBreaker) (now : Int) : Option CircuitBreaker :=
  match cb.state with
  | .opened =>
      if cb.resetTimeout < now - cb.lastFailureTime then
        some { cb with state := .halfOpen }
      else
        none
  | _ => some cb

/-- Observable outcome of one execute call: the breaker afterwards, the result
returned or thrown to the caller, and whether the wrapped operation ran. -/
structure ExecOut (α : Type) where
  breaker : CircuitBreaker
  result : Except CBError α
  invoked : Bool
deriving Repr

/-- execute of the source, with the wrapped operation supplied as its outcome
(the call is synchronous in the single-threaded model, evaluated at time
now). -/
def execute (cb : CircuitBreaker) (now : Int) (op : Except String α) : ExecOut α :=
  match breakerGate cb now with
  | none => ⟨cb, .error .breakerOpen, false⟩
  | some cb1 =>
      match op with
      | .ok a => ⟨onSuccess cb1, .ok a, true⟩
      | .error e => ⟨onFailure cb1 now, .error (.wrapped e), true⟩

/-- A canonical always-failing wrapped operation. -/
def failingOp : Except String Unit := .error "boom"

/-- Drive the breaker through a sequence of failing calls made at the given
instants. -/
def runFailures (cb : CircuitBreaker) (ts : List Int) : CircuitBreaker :=
  ts.foldl (fun c t => (execute c t failingOp).breaker) cb

/-- Trace of execute calls: each entry is the instant of the call and the
outcome of the wrapped operation at that call. -/
def executeTrace (cb : CircuitBreaker) : List (Int × Except String α) → List (ExecOut α)
  | [] => []
  | p :: rest =>
      let o := execute cb p.1 p.2
      o :: executeTrace o.breaker rest

/-! ## Rate limiter (src utils/http: class RateLimiter) -/

/-- The RateLimiter class: the recorded request instants and the two
constructor parameters. -/
structure RateLimiter where
  requests : List Int
  maxRequests : Nat
  windowMs : Int
deriving Repr, DecidableEq

/-- waitForSlot of the source, called at instant now. Returns the limiter
afterwards and the instant at which control returns to the caller (now plus
the computed wait when the window is at capacity). Note the source pushes
now, the instant captured before sleeping, not the instant of admission. -/
def waitForSlot (rl : RateLimiter) (now : Int) : RateLimiter × Int :=
  let reqs := rl.requests.filter (fun t => decide (now - t < rl.windowMs))
  let returnAt :=
    if rl.maxRequests ≤ reqs.length then
      match reqs.head? with
      | some oldest =>
          let waitTime := rl.windowMs - (now - oldest)
          if 0 < waitTime then now + waitTime else now
      | none => now
    else now
  ({ rl with requests := reqs ++ [now] }, returnAt)

/-- Back-to-back acquisitions: the caller issues the next waitForSlot call at
the instant the previous one returned. Returns the admission instants. -/
def runAcquisitions (rl : RateLimiter) (t : Int) : Nat → List Int
  | 0 => []
  | n + 1 =>
      let p := waitForSlot rl t
      p.2 :: runAcquisitions p.1 p.2 n

/-- Number of admission instants falling in the trailing window of width w
ending at tEnd. -/
def admissionsInWindow (adms : List Int) (tEnd w : Int) : Nat :=
  (adms.filter (fun a => decide (tEnd - w < a) && decide (a ≤ tEnd))).length

/-! ## Retry wrapper (fetchWithRetry of the worker file and
fetchWithRetryEnhanced of utils/http) -/

/-- The fields of a fetch Response the retry loop inspects; text is the body
already read (with the catch fallback to the empty string applied). -/
structure FetchResponse where
  ok : Bool
  status : Nat
  text : String
  statusText : String
deriving Repr, DecidableEq

/-- Outcome of one invocation of fetch: it either raises or yields a
response. -/
inductive FetchOutcome where
  | raise (e : String)
  | resp (r : FetchResponse)
deriving Repr, DecidableEq

/-- One iteration body of the retry loop: a raised error propagates, a non-ok
response becomes the thrown HTTP error built from status and body, an ok
response is returned. -/
def attemptResult : FetchOutcome → Except String FetchResponse
  | .raise e => .error e
  | .resp r =>
      if r.ok then .ok r
      else .error ("HTTP " ++ toString r.status ++ ": " ++
        (if r.text = "" then r.statusText else r.text))

/-- The error message the loop would record for an attempt (empty for a
successful attempt, unused in that case). -/
def errMsg (o : FetchOutcome) : String :=
  match attemptResult o with
  | .error e => e
  | .ok _ => ""

/-- Observable outcome of a whole retry loop: the value returned or the error
finally thrown, the number of invocations of the operation, and the backoff
delays slept between attempts. -/
structure RetryOut where
  result : Except String FetchResponse
  invocations : Nat
  delays : List Nat
deriving Repr

/-- The retry loop of both variants, parameterised by the backoff schedule.
remaining counts the iterations left, i is the current attempt index, lastErr
the error recorded so far (thrown if the budget is zero). -/
def retryGo (op : Nat → FetchOutcome) (delay : Nat → Nat) :
    Nat → Nat → Option String → RetryOut
  | 0, _, lastErr => ⟨.error (lastErr.getD ""), 0, []⟩
  | r + 1, i, _ =>
      match attemptResult (op i) with
      | .ok res => ⟨.ok res, 1, []⟩
      | .error e =>
          match r with
          | 0 => ⟨.error e, 1, []⟩
          | r' + 1 =>
              let rest := retryGo op delay (r' + 1) (i + 1) (some e)
              ⟨rest.result, rest.invocations + 1, delay i :: rest.delays⟩

/-- Fixed backoff of the worker-file fetchWithRetry: backoffMs * (i + 1). -/
def fixedDelay (backoffMs i : Nat) : Nat := backoffMs * (i + 1)

/-- Exponential backoff of fetchWithRetryEnhanced: backoffMs * 2 ^ i. -/
def expDelay (backoffMs i : Nat) : Nat := backoffMs * 2 ^ i

/-- fetchWithRetry of the worker file (fixed backoff variant). -/
def fetchWithRetry (op : Nat → FetchOutcome) (attempts backoffMs : Nat) : RetryOut :=
  retryGo op (fixedDelay backoffMs) attempts 0 none

/-- fetchWithRetryEnhanced of utils/http (exponential backoff variant). -/
def fetchWithRetryEnhanced (op : Nat → FetchOutcome) (attempts backoffMs : Nat) : RetryOut :=
  retryGo op (expDelay backoffMs) attempts 0 none

/-! ## Telegram chunking (chunkForTelegram of utils/helpers) -/

/-- Text payloads are modelled as lists of characters, one list entry per
UTF-16 code unit position of the JS string. -/
abbrev Text := List Char

/-- Largest index i with i ≤ k and a line break at i, as an integer, -1 when
there is none (the return convention of String.lastIndexOf). -/
def lastNLAux (l : Text) : Nat → Int
  | 0 => if l.get? 0 = some (Char.ofNat 10) then 0 else -1
  | k + 1 =>
      if l.get? (k + 1) = some (Char.ofNat 10) then ((k + 1 : Nat) : Int)
      else lastNLAux l k

/-- html.lastIndexOf of a newline with fromIndex e: the search starts at
min e (length - 1), matching the clamping of String.lastIndexOf. -/
def lastIndexOfNL (l : Text) (e : Nat) : Int :=
  lastNLAux l (min e (l.length - 1))

/-- html.slice s e for s ≤ e: the characters of positions s to e - 1. -/
def sliceTxt (l : Text) (s e : Nat) : Text := (l.take e).drop s

/-- The boundary the loop body chooses for the segment starting at start: the
hard offset start + maxLength (capped at the end of the text), moved back to
the last line break at or before it when that break lies strictly more than
200 characters into the segment. -/
def segEnd (html : Text) (maxLength start : Nat) : Nat :=
  if (start : Int) + 200 < lastIndexOfNL html (min (start + maxLength) html.length) then
    (lastIndexOfNL html (min (start + maxLength) html.length)).toNat
  else min (start + maxLength) html.length

/-- The while loop of chunkForTelegram, with explicit fuel (the source loop
terminates because every iteration strictly advances start as long as
maxLength is at least 1). -/
def chunkLoop (html : Text) (maxLength : Nat) : Nat → Nat → List Text
  | _, 0 => []
  | start, fuel + 1 =>
      if start < html.length then
        let e := segEnd html maxLength start
        sliceTxt html start e :: chunkLoop html maxLength e fuel
      else []

/-- chunkForTelegram of utils/helpers: short payloads pass through whole,
longer ones are split by the loop. -/
def chunkForTelegram (html : Text) (maxLength : Nat) : List Text :=
  if html.length ≤ maxLength then [html]
  else chunkLoop html maxLength 0 html.length

/-- Iterated boundary function: the start offset of the k-th segment when the
loop is entered at start. -/
def iterSeg (html : Text) (maxLength start : Nat) : Nat → Nat
  | 0 => start
  | k + 1 => segEnd html maxLength (iterSeg html maxLength start k)

/-- The start offset of the k-th chunk produced for a long payload. -/
def startAt (html : Text) (maxLength k : Nat) : Nat :=
  iterSeg html maxLength 0 k

/-- The predicate the spec phrases the boundary rule with: i is the last line
break at or before position e. -/
def IsLastBreakLE (html : Text) (e i : Nat) : Prop :=
  html.get? i = some (Char.ofNat 10) ∧ i ≤ e ∧
    ∀ j, j ≤ e → html.get? j = some (Char.ofNat 10) → j ≤ i

/-! ## Batch pipeline (handleRun of the analysis controller, and the worker
file variant) -/

/-- Sentiment categories of the SentimentJSON payload. -/
inductive SentimentCategory where
  | positive
  | neutral
  | negative
deriving Repr, DecidableEq

/-- One side (short or long term) of the sentiment payload. -/
structure SentimentSide where
  category : SentimentCategory
  score : Int
  rationale : String
deriving Repr, DecidableEq

/-- The SentimentJSON payload. -/
structure Sentiment where
  shortTermSentiment : SentimentSide
  longTermSentiment : SentimentSide
deriving Repr, DecidableEq

/-- The neutral fallback the worker file substitutes when the sentiment
response fails to parse. -/
def neutralSide : SentimentSide :=
  ⟨.neutral, 0, "Fallback due to parsing error."⟩

/-- The full neutral fallback sentiment. -/
def neutralDefault : Sentiment := ⟨neutralSide, neutralSide⟩

/-- The environment of one controller run, with every effectful stage replaced
by its outcome: the news fetch, the sentiment model call, JSON.parse on the
raw sentiment, the per-coin stage sequence (analyzeCoin), and the summary
Telegram send. -/
structure RunDeps where
  news : Except String Unit
  sentimentRaw : Except String String
  parse : String → Option Sentiment
  coins : List String
  itemOutcome : String → Except String Unit
  summarySend : Except String Unit

/-- Whether an Except value is a success. -/
def exceptOk : Except String Unit → Bool
  | .ok _ => true
  | .error _ => false

/-- The per-coin loop of the controller handleRun: partition the coins, in
order, into the successfully analyzed ones and the failed ones. -/
def processCoins (itemOutcome : String → Except String Unit) :
    List String → List String × List String
  | [] => ([], [])
  | c :: rest =>
      let p := processCoins itemOutcome rest
      match itemOutcome c with
      | .ok _ => (c :: p.1, p.2)
      | .error _ => (p.1, c :: p.2)

/-- The observable result of one controller run: the object returned to the
caller (ok, coins, error) plus the trace of coins analyzeCoin was invoked
on. -/
structure RunOutput where
  ok : Bool
  coins : List String
  error : Option String
  attempted : List String
deriving Repr, DecidableEq

/-- handleRun of the analysis controller. News, sentiment-call or
sentiment-parse failures escalate to the outer catch, which returns ok false
with an empty coins list; per-coin failures are caught in the loop; a failing
summary send (issued only when at least one coin succeeded) also escalates to
the outer catch. -/
def handleRun (d : RunDeps) : RunOutput :=
  match d.news with
  | .error e => ⟨false, [], some e, []⟩
  | .ok _ =>
    match d.sentimentRaw with
    | .error e => ⟨false, [], some e, []⟩
    | .ok raw =>
      match d.parse raw with
      | none => ⟨false, [], some "Failed to parse sentiment response", []⟩
      | some _ =>
          let p := processCoins d.itemOutcome d.coins
          let summaryFailure : Option String :=
            if 0 < p.1.length then
              match d.summarySend with
              | .error e => some e
              | .ok _ => none
            else none
          match summaryFailure with
          | some e => ⟨false, [], some e, d.coins⟩
          | none =>
              if 0 < p.2.length then
                ⟨false, p.1,
                  some ("Failed to analyze: " ++ String.intercalate ", " p.2),
                  d.coins⟩
              else ⟨true, p.1, none, d.coins⟩

/-- The environment of one worker-file run; in that variant the news fetch
never throws (it falls back to mock articles internally) and the per-coin
failures are logged and dropped, so only the sentiment call, the parse and
the coin list matter. -/
structure WorkerDeps where
  sentimentRaw : Except String String
  parse : String → Option Sentiment
  coins : List String

/-- handleRun of the worker file: a sentiment-call failure propagates to the
caller; a parse failure degrades to the neutral default; every coin is then
analyzed with the chosen sentiment and the response is ok true with the full
coin list. The returned trace records the sentiment each coin was analyzed
with. -/
def handleRunWorker (d : WorkerDeps) :
    Except String (Bool × List String × List (String × Sentiment)) :=
  match d.sentimentRaw with
  | .error e => .error e
  | .ok raw =>
      let sentiment :=
        match d.parse raw with
        | some s => s
        | none => neutralDefault
      .ok (true, d.coins, d.coins.map (fun c => (c, sentiment)))

/-! ## Helper lemmas: retry loop -/

/-- One-attempt unfolding of the retry loop on a failing attempt: the budget
is exhausted and the attempt error is thrown. -/
theorem retryGo_fail_zero (op : Nat → FetchOutcome) (delay : Nat → Nat)
    (i : Nat) (lastErr : Option String) (e : String)
    (he : attemptResult (op i) = .error e) :
    retryGo op delay (0 + 1) i lastErr = ⟨.error e, 1, []⟩ := by
  show retryGo op delay (Nat.succ 0) i lastErr = _
  rw [retryGo, he]

/-- Unfolding of the retry loop on a failing attempt with budget left: sleep
the backoff for this index and continue with the next attempt index. -/
theorem retryGo_fail_succ (op : Nat → FetchOutcome) (delay : Nat → Nat)
    (r i : Nat) (lastErr : Option String) (e : String)
    (he : attemptResult (op i) = .error e) :
    retryGo op delay (r + 1 + 1) i lastErr =
      ⟨(retryGo op delay (r + 1) (i + 1) (some e)).result,
       (retryGo op delay (r + 1) (i + 1) (some e)).invocations + 1,
       delay i :: (retryGo op delay (r + 1) (i + 1) (some e)).delays⟩ := by
  rw [retryGo, he]

/-- When every attempt fails, the retry loop runs its whole budget and ends
with the error of the final attempt. -/
theorem retryGo_always_fails (op : Nat → FetchOutcome) (delay : Nat → Nat)
    (h : ∀ j, ∃ e, attemptResult (op j) = .error e) :
    ∀ r i lastErr,
      (retryGo op delay (r + 1) i lastErr).result = .error (errMsg (op (i + r))) ∧
      (retryGo op delay (r + 1) i lastErr).invocations = r + 1 := by
  intro r
  induction r with
  | zero =>
      intro i lastErr
      obtain ⟨e, he⟩ := h i
      have hm : errMsg (op i) = e := by
        unfold errMsg
        rw [he]
      have hm' : errMsg (op (i + 0)) = e := hm
      rw [retryGo_fail_zero op delay i lastErr e he, hm']
      exact ⟨rfl, rfl⟩
  | succ r ih =>
      intro i lastErr
      obtain ⟨e, he⟩ := h i
      have h2 := ih (i + 1) (some e)
      have hidx : i + 1 + r = i + (r + 1) := by omega
      rw [hidx] at h2
      rw [retryGo_fail_succ op delay r i lastErr e he]
      exact ⟨h2.1, by rw [h2.2]⟩

/-- A concrete operation whose every invocation raises. -/
def alwaysRaise : Nat → FetchOutcome := fun i => .raise ("fail " ++ toString i)

/-- C5: for every attempt budget N at least 1 and every operation failing on
every invocation (raising or returning a non-2xx response), both retry
variants, fetchWithRetry with fixed backoff and fetchWithRetryEnhanced with
exponential backoff, invoke the operation exactly N times and then propagate
the error of the final attempt to the caller. -/
theorem c5_retry_bound (op : Nat → FetchOutcome) (attempts backoffMs : Nat)
    (hN : 1 ≤ attempts) (hfail : ∀ j, ∃ e, attemptResult (op j) = .error e) :
    (fetchWithRetry op attempts backoffMs).invocations = attempts ∧
    (fetchWithRetry op attempts backoffMs).result = .error (errMsg (op (attempts - 1))) ∧
    (fetchWithRetryEnhanced op attempts backoffMs).invocations = attempts ∧
    (fetchWithRetryEnhanced op attempts backoffMs).result = .error (errMsg (op (attempts - 1))) := by
  obtain ⟨r, rfl⟩ : ∃ r, attempts = r + 1 := ⟨attempts - 1, by omega⟩
  have h1 := retryGo_always_fails op (fixedDelay backoffMs) hfail r 0 none
  have h2 := retryGo_always_fails op (expDelay backoffMs) hfail r 0 none
  rw [Nat.zero_add] at h1 h2
  have hr : r + 1 - 1 = r := by omega
  rw [hr]
  exact ⟨h1.2, h1.1, h2.2, h2.1⟩

/-- Witness for C5 at a concrete always-raising operation with budget 3. -/
theorem c5_retry_bound_witness :
    1 ≤ 3 ∧
    ((fetchWithRetry alwaysRaise 3 500).invocations = 3 ∧
     (fetchWithRetry alwaysRaise 3 500).result = .error (errMsg (alwaysRaise 2)) ∧
     (fetchWithRetryEnhanced alwaysRaise 3 500).invocations = 3 ∧
     (fetchWithRetryEnhanced alwaysRaise 3 500).result = .error (errMsg (alwaysRaise 2))) :=
  ⟨by decide,
   c5_retry_bound alwaysRaise 3 500 (by decide)
     (fun j => ⟨"fail " ++ toString j, rfl⟩)⟩

/-! ## Helper lemmas: circuit breaker -/

/-- A call against an OPEN breaker inside the reset window is rejected with
the breaker-open error, without running the operation and without touching
the breaker record. -/
theorem execute_rejected {α : Type} (cb : CircuitBreaker) (now : Int)
    (op : Except String α)
    (hst : cb.state = .opened) (ht : now - cb.lastFailureTime ≤ cb.resetTimeout) :
    execute cb now op = ⟨cb, .error .breakerOpen, false⟩ := by
  have hgate : breakerGate cb now = none := by
    unfold breakerGate
    rw [hst]
    simp [not_lt.mpr ht]
  unfold execute
  rw [hgate]

/-- A failing call against a CLOSED breaker goes through onFailure. -/
theorem execute_closed_fail (cb : CircuitBreaker) (t : Int)
    (hst : cb.state = .closed) :
    (execute cb t failingOp).breaker = onFailure cb t := by
  have hgate : breakerGate cb t = some cb := by
    unfold breakerGate
    rw [hst]
  unfold execute failingOp
  rw [hgate]

/-- Running failures against a closed breaker that stays under its threshold
leaves it closed and counts the failures. -/
theorem runFailures_closed (ts : List Int) :
    ∀ cb : CircuitBreaker, cb.state = .closed →
    cb.failures + ts.length < cb.failureThreshold →
    (runFailures cb ts).state = .closed ∧
    (runFailures cb ts).failures = cb.failures + ts.length ∧
    (runFailures cb ts).failureThreshold = cb.failureThreshold ∧
    (runFailures cb ts).resetTimeout = cb.resetTimeout := by
  induction ts with
  | nil =>
      intro cb h0 _
      exact ⟨h0, rfl, rfl, rfl⟩
  | cons t ts ih =>
      intro cb h0 h1
      have hlen : (t :: ts).length = ts.length + 1 := rfl
      have h1' : cb.failures + (ts.length + 1) < cb.failureThreshold := by
        rw [hlen] at h1
        exact h1
      have hnotrip : ¬ cb.failureThreshold ≤ cb.failures + 1 := by omega
      have hb : (execute cb t failingOp).breaker = onFailure cb t :=
        execute_closed_fail cb t h0
      have hst' : (onFailure cb t).state = cb.state := by
        show (if cb.failureThreshold ≤ cb.failures + 1 then CBState.opened
          else cb.state) = cb.state
        rw [if_neg hnotrip]
      have h0' : (onFailure cb t).state = .closed := by rw [hst', h0]
      have hstep : runFailures cb (t :: ts) = runFailures (onFailure cb t) ts := by
        show runFailures (execute cb t failingOp).breaker ts = _
        rw [hb]
      have hff : (onFailure cb t).failures = cb.failures + 1 := rfl
      have hft : (onFailure cb t).failureThreshold = cb.failureThreshold := rfl
      have hrt : (onFailure cb t).resetTimeout = cb.resetTimeout := rfl
      have hres := ih (onFailure cb t) h0' (by rw [hff, hft]; omega)
      rw [hstep]
      refine ⟨hres.1, ?_, hres.2.2.1.trans hft, hres.2.2.2.trans hrt⟩
      rw [hres.2.1, hff, hlen]
      omega

/-- Exactly failureThreshold consecutive failures from a fresh closed breaker
trip it to OPEN, keeping its configuration. -/
theorem runFailures_trip (cb : CircuitBreaker) (ts : List Int)
    (h0 : cb.state = .closed) (h1 : cb.failures = 0)
    (h2 : ts.length = cb.failureThreshold) (h3 : 1 ≤ cb.failureThreshold) :
    (runFailures cb ts).state = .opened ∧
    (runFailures cb ts).failures = cb.failureThreshold ∧
    (runFailures cb ts).resetTimeout = cb.resetTimeout := by
  rcases (List.eq_nil_or_concat ts) with hnil | ⟨ts0, t, rfl⟩
  · exfalso
    subst hnil
    simp at h2
    omega
  · have hclen : (ts0.concat t).length = ts0.length + 1 := by
      rw [List.concat_eq_append, List.length_append]
      rfl
    have hlen : ts0.length + 1 = cb.failureThreshold := by
      rw [hclen] at h2
      exact h2
    have hunder : cb.failures + ts0.length < cb.failureThreshold := by omega
    have hres := runFailures_closed ts0 cb h0 hunder
    have hsplit : runFailures cb (ts0.concat t) =
        (execute (runFailures cb ts0) t failingOp).breaker := by
      rw [List.concat_eq_append]
      show List.foldl _ cb (ts0 ++ [t]) = _
      rw [List.foldl_append]
      rfl
    rw [hsplit, execute_closed_fail (runFailures cb ts0) t hres.1]
    have hf : (runFailures cb ts0).failures = ts0.length := by
      rw [hres.2.1, h1]
      omega
    have htrip : (onFailure (runFailures cb ts0) t).state = CBState.opened := by
      show (if (runFailures cb ts0).failureThreshold ≤ (runFailures cb ts0).failures + 1
        then CBState.opened else (runFailures cb ts0).state) = CBState.opened
      rw [if_pos]
      rw [hres.2.2.1, hf]
      omega
    refine ⟨htrip, ?_, hres.2.2.2⟩
    show (runFailures cb ts0).failures + 1 = cb.failureThreshold
    rw [hf]
    omega

/-- Every call of a trace against an OPEN breaker inside the reset window is
rejected without invoking anything. -/
theorem executeTrace_rejected {α : Type} (calls : List (Int × Except String α)) :
    ∀ cb : CircuitBreaker, cb.state = .opened →
    (∀ p ∈ calls, p.1 - cb.lastFailureTime ≤ cb.resetTimeout) →
    ∀ o ∈ executeTrace cb calls, o.result = .error .breakerOpen ∧ o.invoked = false := by
  induction calls with
  | nil =>
      intro cb _ _ o ho
      simp [executeTrace] at ho
  | cons p rest ih =>
      intro cb hst hc o ho
      have hrej := execute_rejected cb p.1 p.2 hst (hc p (by simp))
      simp only [executeTrace] at ho
      rw [hrej] at ho
      simp only [List.mem_cons] at ho
      rcases ho with rfl | ho
      · exact ⟨rfl, rfl⟩
      · exact ih cb hst (fun q hq => hc q (by simp [hq])) o ho

/-- C6: after failureThreshold consecutive failures recorded by one breaker
instance, every subsequent execute call made before resetTimeout has elapsed
since the last failure fails immediately with the distinguished breaker-open
error, which is distinct from any wrapped operation error, and the underlying
operation is never invoked. -/
theorem c6_breaker_trip (cb0 : CircuitBreaker) (ts : List Int)
    (calls : List (Int × Except String Unit))
    (h0 : cb0.state = .closed) (h1 : cb0.failures = 0)
    (h2 : ts.length = cb0.failureThreshold) (h3 : 1 ≤ cb0.failureThreshold)
    (hcalls : ∀ p ∈ calls,
      p.1 - (runFailures cb0 ts).lastFailureTime ≤ (runFailures cb0 ts).resetTimeout) :
    (runFailures cb0 ts).state = .opened ∧
    (∀ o ∈ executeTrace (runFailures cb0 ts) calls,
      o.result = .error .breakerOpen ∧ o.invoked = false) ∧
    (∀ e : String, (CBError.breakerOpen : CBError) ≠ CBError.wrapped e) := by
  have htrip := runFailures_trip cb0 ts h0 h1 h2 h3
  exact ⟨htrip.1, executeTrace_rejected calls (runFailures cb0 ts) htrip.1 hcalls,
    fun e h => by cases h⟩

/-- Witness for C6: threshold 2 breaker tripped by failures at 5 and 10, then
probed twice inside the 60000 ms window. -/
theorem c6_breaker_trip_witness :
    ((⟨0, 0, .closed, 2, 60000⟩ : CircuitBreaker).state = .closed ∧
     (⟨0, 0, .closed, 2, 60000⟩ : CircuitBreaker).failures = 0 ∧
     ([5, 10] : List Int).length = 2 ∧
     (∀ p ∈ ([(20, .ok ()), (30, .error "x")] : List (Int × Except String Unit)),
       p.1 - (runFailures ⟨0, 0, .closed, 2, 60000⟩ [5, 10]).lastFailureTime ≤
         (runFailures ⟨0, 0, .closed, 2, 60000⟩ [5, 10]).resetTimeout)) ∧
    ((runFailures ⟨0, 0, .closed, 2, 60000⟩ [5, 10]).state = .opened ∧
     (∀ o ∈ executeTrace (runFailures ⟨0, 0, .closed, 2, 60000⟩ [5, 10])
         ([(20, .ok ()), (30, .error "x")] : List (Int × Except String Unit)),
       o.result = .error .breakerOpen ∧ o.invoked = false) ∧
     (∀ e : String, (CBError.breakerOpen : CBError) ≠ CBError.wrapped e)) :=
  ⟨⟨rfl, rfl, rfl, by decide⟩,
   c6_breaker_trip ⟨0, 0, .closed, 2, 60000⟩ [5, 10]
     [(20, .ok ()), (30, .error "x")] rfl rfl rfl (by decide) (by decide)⟩

/-- C7: when the breaker is OPEN and more than resetTimeout has elapsed since
the last failure, the next execute call moves it to HALF_OPEN and runs the
operation; a successful probe closes the breaker and clears the counter, a
failing probe reopens it with lastFailureTime set to the probe instant. The
counter hypothesis is the documented record invariant, which holds on every
reachable OPEN state. -/
theorem c7_breaker_recovery (cb : CircuitBreaker) (now : Int)
    (hst : cb.state = .opened) (ht : cb.resetTimeout < now - cb.lastFailureTime)
    (hinv : cb.failureThreshold ≤ cb.failures + 1) :
    breakerGate cb now = some { cb with state := .halfOpen } ∧
    (∀ a : Unit, (execute cb now (Except.ok a)).invoked = true ∧
      (execute cb now (Except.ok a : Except String Unit)).breaker.state = .closed ∧
      (execute cb now (Except.ok a : Except String Unit)).breaker.failures = 0) ∧
    (∀ e : String, (execute cb now (Except.error e : Except String Unit)).invoked = true ∧
      (execute cb now (Except.error e : Except String Unit)).breaker.state = .opened ∧
      (execute cb now (Except.error e : Except String Unit)).breaker.lastFailureTime = now) := by
  have hgate : breakerGate cb now = some { cb with state := .halfOpen } := by
    unfold breakerGate
    rw [hst]
    simp [ht]
  refine ⟨hgate, ?_, ?_⟩
  · intro a
    unfold execute
    rw [hgate]
    exact ⟨rfl, rfl, rfl⟩
  · intro e
    unfold execute
    rw [hgate]
    refine ⟨rfl, ?_, rfl⟩
    simp [onFailure, hinv]

/-- Witness for C7: a tripped threshold-5 breaker probed after the window. -/
theorem c7_breaker_recovery_witness :
    ((⟨5, 0, .opened, 5, 60000⟩ : CircuitBreaker).state = .opened ∧
     (⟨5, 0, .opened, 5, 60000⟩ : CircuitBreaker).resetTimeout <
       (70000 : Int) - (⟨5, 0, .opened, 5, 60000⟩ : CircuitBreaker).lastFailureTime ∧
     (⟨5, 0, .opened, 5, 60000⟩ : CircuitBreaker).failureThreshold ≤
       (⟨5, 0, .opened, 5, 60000⟩ : CircuitBreaker).failures + 1) ∧
    (breakerGate ⟨5, 0, .opened, 5, 60000⟩ 70000 =
       some { (⟨5, 0, .opened, 5, 60000⟩ : CircuitBreaker) with state := .halfOpen } ∧
     (∀ a : Unit, (execute ⟨5, 0, .opened, 5, 60000⟩ 70000 (Except.ok a)).invoked = true ∧
       (execute ⟨5, 0, .opened, 5, 60000⟩ 70000 (Except.ok a : Except String Unit)).breaker.state = .closed ∧
       (execute ⟨5, 0, .opened, 5, 60000⟩ 70000 (Except.ok a : Except String Unit)).breaker.failures = 0) ∧
     (∀ e : String, (execute ⟨5, 0, .opened, 5, 60000⟩ 70000 (Except.error e : Except String Unit)).invoked = true ∧
       (execute ⟨5, 0, .opened, 5, 60000⟩ 70000 (Except.error e : Except String Unit)).breaker.state = .opened ∧
       (execute ⟨5, 0, .opened, 5, 60000⟩ 70000 (Except.error e : Except String Unit)).breaker.lastFailureTime = 70000)) :=
  ⟨⟨rfl, by decide, by decide⟩,
   c7_breaker_recovery ⟨5, 0, .opened, 5, 60000⟩ 70000 rfl (by decide) (by decide)⟩

/-- C10: a call rejected because the breaker is OPEN and the reset timeout has
not elapsed leaves the whole breaker record unchanged: same failure counter,
same lastFailureTime, same state; the caller gets the breaker-open error and
the operation is not invoked. -/
theorem c10_rejection_frame (cb : CircuitBreaker) (now : Int)
    (op : Except String Unit)
    (hst : cb.state = .opened) (ht : now - cb.lastFailureTime ≤ cb.resetTimeout) :
    (execute cb now op).breaker = cb ∧
    (execute cb now op).result = .error .breakerOpen ∧
    (execute cb now op).invoked = false := by
  rw [execute_rejected cb now op hst ht]
  exact ⟨rfl, rfl, rfl⟩

/-- Witness for C10: an open threshold-5 breaker rejected at t = 100. -/
theorem c10_rejection_frame_witness :
    ((⟨5, 0, .opened, 5, 60000⟩ : CircuitBreaker).state = .opened ∧
     (100 : Int) - (⟨5, 0, .opened, 5, 60000⟩ : CircuitBreaker).lastFailureTime ≤
       (⟨5, 0, .opened, 5, 60000⟩ : CircuitBreaker).resetTimeout) ∧
    ((execute ⟨5, 0, .opened, 5, 60000⟩ 100 (Except.error "y" : Except String Unit)).breaker =
       ⟨5, 0, .opened, 5, 60000⟩ ∧
     (execute ⟨5, 0, .opened, 5, 60000⟩ 100 (Except.error "y" : Except String Unit)).result =
       .error .breakerOpen ∧
     (execute ⟨5, 0, .opened, 5, 60000⟩ 100 (Except.error "y" : Except String Unit)).invoked = false) :=
  ⟨⟨rfl, by decide⟩,
   c10_rejection_frame ⟨5, 0, .opened, 5, 60000⟩ 100 (Except.error "y") rfl (by decide)⟩

/-- C4: evaluation of the rate limiter at the failing input. With maxRequests
1 and windowMs 1000, three back-to-back waitForSlot acquisitions are let through
at instants 0, 1000 and 1000: the trailing 1000 ms window ending at 1000
contains two admissions, exceeding maxRequests. The second call records its
pre-sleep instant 0 instead of its admission instant 1000, so the third call
finds an empty window and is let through immediately. -/
theorem c4_rate_limiter_eval :
    runAcquisitions { requests := [], maxRequests := 1, windowMs := 1000 } 0 3 =
      [0, 1000, 1000] ∧
    admissionsInWindow [0, 1000, 1000] 1000 1000 = 2 ∧ 1 < 2 := by
  decide

/-! ## Helper lemmas and claim theorems: batch pipeline -/

/-- The per-coin loop partitions the coin list, preserving order, by the
outcome of each analyzeCoin call. -/
theorem processCoins_eq (f : String → Except String Unit) :
    ∀ coins : List String,
      processCoins f coins =
        (coins.filter (fun c => exceptOk (f c)),
         coins.filter (fun c => !(exceptOk (f c)))) := by
  intro coins
  induction coins with
  | nil => rfl
  | cons c rest ih =>
      cases hfc : f c with
      | ok a =>
          simp [processCoins, ih, List.filter_cons, hfc, exceptOk]
      | error e =>
          simp [processCoins, ih, List.filter_cons, hfc, exceptOk]

/-- C1 (amended): when the shared stages succeed, the summary send succeeds,
and some item of the list fails, the controller pipeline returns ok false,
its succeeded list is exactly the items whose stage sequence succeeded in the
supplied order, and every item of the list was attempted: a failing item
never prevents the later items from being processed. -/
theorem c1_partial_failure_isolation (d : RunDeps) (r : String) (s : Sentiment)
    (hn : d.news = .ok ()) (hs : d.sentimentRaw = .ok r) (hp : d.parse r = some s)
    (hsum : d.summarySend = .ok ())
    (hfail : ∃ c ∈ d.coins, exceptOk (d.itemOutcome c) = false) :
    (handleRun d).ok = false ∧
    (handleRun d).coins = d.coins.filter (fun c => exceptOk (d.itemOutcome c)) ∧
    (handleRun d).attempted = d.coins := by
  obtain ⟨c, hc, hcf⟩ := hfail
  have hfailmem : c ∈ d.coins.filter (fun c => !(exceptOk (d.itemOutcome c))) := by
    simp [List.mem_filter, hc, hcf]
  have hlen : 0 < (d.coins.filter (fun c => !(exceptOk (d.itemOutcome c)))).length :=
    List.length_pos.mpr (fun hnil => by simp [hnil] at hfailmem)
  simp only [handleRun, hn, hs, hp, processCoins_eq]
  by_cases hs1 : 0 < (d.coins.filter (fun c => exceptOk (d.itemOutcome c))).length
  · simp [hs1, hsum, hlen]
  · simp [hs1, hsum, hlen]

/-- C3 (amended): when the shared stages succeed, at least one item succeeds
and the summary-notification send fails, the failure propagates to the outer
catch: the pipeline returns ok false with an empty succeeded list and the
send error, not the result it would have returned had the send succeeded. -/
theorem c3_summary_failure_propagates (d : RunDeps) (r : String) (s : Sentiment) (e : String)
    (hn : d.news = .ok ()) (hs : d.sentimentRaw = .ok r) (hp : d.parse r = some s)
    (hsucc : 0 < (d.coins.filter (fun c => exceptOk (d.itemOutcome c))).length)
    (hsum : d.summarySend = .error e) :
    handleRun d = ⟨false, [], some e, d.coins⟩ := by
  simp only [handleRun, hn, hs, hp, processCoins_eq]
  simp [hsucc, hsum]

/-- C2 (amended): when the shared sentiment response cannot be parsed, the
worker-file variant of handleRun substitutes the neutral default (Neutral
category, score 0) and continues, analyzing every coin with that default,
while the analysis-controller variant escalates the parse failure and aborts
the run with no items processed. -/
theorem c2_parse_failure (w : WorkerDeps) (d : RunDeps) (raw rawc : String)
    (hwr : w.sentimentRaw = .ok raw) (hwp : w.parse raw = none)
    (hn : d.news = .ok ()) (hs : d.sentimentRaw = .ok rawc) (hp : d.parse rawc = none) :
    handleRunWorker w = .ok (true, w.coins, w.coins.map (fun c => (c, neutralDefault))) ∧
    (handleRun d).ok = false ∧ (handleRun d).attempted = [] := by
  refine ⟨?_, ?_⟩
  · simp only [handleRunWorker, hwr, hwp]
  · simp [handleRun, hn, hs, hp]

/-- Concrete controller environment: shared stages succeed, coin A succeeds,
coin B fails, summary send succeeds. -/
def exDepsC1 : RunDeps :=
  { news := .ok ()
    sentimentRaw := .ok "raw"
    parse := fun _ => some neutralDefault
    coins := ["A", "B"]
    itemOutcome := fun c => if c = "A" then .ok () else .error "item failed"
    summarySend := .ok () }

/-- The same environment with a failing summary send. -/
def exDepsC1Bad : RunDeps := { exDepsC1 with summarySend := .error "telegram down" }

/-- C1 counterexample: with the shared stages succeeding and item B failing,
a failing summary send makes the returned succeeded list empty instead of
the list of items that succeeded, refuting the claim as stated, which
assumes nothing about the summary send. -/
theorem c1_counterexample :
    (exDepsC1Bad.news = .ok () ∧ exDepsC1Bad.sentimentRaw = .ok "raw" ∧
     exDepsC1Bad.parse "raw" = some neutralDefault ∧
     exceptOk (exDepsC1Bad.itemOutcome "B") = false ∧ "B" ∈ exDepsC1Bad.coins) ∧
    exDepsC1Bad.coins.filter (fun c => exceptOk (exDepsC1Bad.itemOutcome c)) = ["A"] ∧
    (handleRun exDepsC1Bad).coins = [] ∧
    (handleRun exDepsC1Bad).coins ≠ ["A"] := by
  refine ⟨⟨rfl, rfl, rfl, rfl, ?_⟩, ?_, ?_, ?_⟩ <;> decide

/-- Witness for C1 at the concrete environment with a succeeding summary
send. -/
theorem c1_witness :
    (exDepsC1.news = .ok () ∧ exDepsC1.sentimentRaw = .ok "raw" ∧
     exDepsC1.parse "raw" = some neutralDefault ∧ exDepsC1.summarySend = .ok () ∧
     ∃ c ∈ exDepsC1.coins, exceptOk (exDepsC1.itemOutcome c) = false) ∧
    ((handleRun exDepsC1).ok = false ∧
     (handleRun exDepsC1).coins =
       exDepsC1.coins.filter (fun c => exceptOk (exDepsC1.itemOutcome c)) ∧
     (handleRun exDepsC1).attempted = exDepsC1.coins) :=
  ⟨⟨rfl, rfl, rfl, rfl, by decide⟩,
   c1_partial_failure_isolation exDepsC1 "raw" neutralDefault rfl rfl rfl rfl (by decide)⟩

/-- Concrete controller environment: every item succeeds, summary send
fails. -/
def exDepsC3 : RunDeps :=
  { news := .ok ()
    sentimentRaw := .ok "sent"
    parse := fun _ => some neutralDefault
    coins := ["X", "Y"]
    itemOutcome := fun _ => .ok ()
    summarySend := .error "summary send failed" }

/-- The same environment with a succeeding summary send. -/
def exDepsC3Ok : RunDeps := { exDepsC3 with summarySend := .ok () }

/-- C3 counterexample: with both items succeeding, the run with a failing
summary send returns a different result (ok false, empty succeeded list)
than the run with a succeeding one (ok true, both items), refuting the claim
that a summary-send failure leaves the returned result unchanged. -/
theorem c3_counterexample :
    handleRun exDepsC3Ok = ⟨true, ["X", "Y"], none, ["X", "Y"]⟩ ∧
    handleRun exDepsC3 = ⟨false, [], some "summary send failed", ["X", "Y"]⟩ ∧
    handleRun exDepsC3 ≠ handleRun exDepsC3Ok := by
  refine ⟨?_, ?_, ?_⟩ <;> decide

/-- Witness for C3 at the concrete environment. -/
theorem c3_witness :
    (exDepsC3.news = .ok () ∧ exDepsC3.sentimentRaw = .ok "sent" ∧
     exDepsC3.parse "sent" = some neutralDefault ∧
     0 < (exDepsC3.coins.filter (fun c => exceptOk (exDepsC3.itemOutcome c))).length ∧
     exDepsC3.summarySend = .error "summary send failed") ∧
    handleRun exDepsC3 = ⟨false, [], some "summary send failed", exDepsC3.coins⟩ :=
  ⟨⟨rfl, rfl, rfl, by decide, rfl⟩,
   c3_summary_failure_propagates exDepsC3 "sent" neutralDefault "summary send failed"
     rfl rfl rfl (by decide) rfl⟩

/-- Concrete worker-file environment with an unparseable sentiment
response. -/
def exWorker : WorkerDeps :=
  { sentimentRaw := .ok "not json"
    parse := fun _ => none
    coins := ["BTC", "ETH"] }

/-- Concrete controller environment with an unparseable sentiment
response. -/
def exDepsC2 : RunDeps :=
  { news := .ok ()
    sentimentRaw := .ok "not json"
    parse := fun _ => none
    coins := ["BTC", "ETH"]
    itemOutcome := fun _ => .ok ()
    summarySend := .ok () }

/-- C2 counterexample: in the analysis-controller variant an unparseable
sentiment response aborts the run with ok false and no items attempted,
refuting the claim that the batch pipeline substitutes a neutral default and
continues to process all items. -/
theorem c2_counterexample :
    exDepsC2.sentimentRaw = .ok "not json" ∧
    exDepsC2.parse "not json" = none ∧
    exDepsC2.coins = ["BTC", "ETH"] ∧
    (handleRun exDepsC2).ok = false ∧
    (handleRun exDepsC2).attempted = [] := by
  refine ⟨rfl, rfl, rfl, ?_, ?_⟩ <;> decide

/-- Witness for C2 at the concrete worker and controller environments. -/
theorem c2_witness :
    (exWorker.sentimentRaw = .ok "not json" ∧ exWorker.parse "not json" = none ∧
     exDepsC2.news = .ok () ∧ exDepsC2.sentimentRaw = .ok "not json" ∧
     exDepsC2.parse "not json" = none) ∧
    (handleRunWorker exWorker =
       .ok (true, exWorker.coins, exWorker.coins.map (fun c => (c, neutralDefault))) ∧
     (handleRun exDepsC2).ok = false ∧ (handleRun exDepsC2).attempted = []) :=
  ⟨⟨rfl, rfl, rfl, rfl, rfl⟩,
   c2_parse_failure exWorker exDepsC2 "not json" "not json" rfl rfl rfl rfl rfl⟩

/-! ## Helper lemmas and claim theorems: chunking -/

/-- The scan result is bounded by the scan start index. -/
theorem lastNLAux_le (l : Text) : ∀ k : Nat, lastNLAux l k ≤ (k : Int) := by
  intro k
  induction k with
  | zero =>
      unfold lastNLAux
      split
      · exact le_refl 0
      · norm_num
  | succ k ih =>
      unfold lastNLAux
      split
      · exact le_refl _
      · exact le_trans ih (by exact_mod_cast Nat.le_succ k)

/-- A nonnegative scan result points at a line break. -/
theorem lastNLAux_get (l : Text) : ∀ k : Nat, 0 ≤ lastNLAux l k →
    l.get? (lastNLAux l k).toNat = some (Char.ofNat 10) := by
  intro k
  induction k with
  | zero =>
      intro h
      by_cases hc : l.get? 0 = some (Char.ofNat 10)
      · rw [lastNLAux, if_pos hc]
        exact hc
      · rw [lastNLAux, if_neg hc] at h
        norm_num at h
  | succ k ih =>
      intro h
      by_cases hc : l.get? (k + 1) = some (Char.ofNat 10)
      · rw [lastNLAux, if_pos hc]
        exact hc
      · rw [lastNLAux, if_neg hc] at h ⊢
        exact ih h

/-- The scan result dominates every line break index within the scanned
range. -/
theorem lastNLAux_maximal (l : Text) : ∀ k j : Nat, j ≤ k →
    l.get? j = some (Char.ofNat 10) → (j : Int) ≤ lastNLAux l k := by
  intro k
  induction k with
  | zero =>
      intro j hj hg
      have hj0 : j = 0 := by omega
      subst hj0
      rw [lastNLAux, if_pos hg]
      norm_num
  | succ k ih =>
      intro j hj hg
      by_cases hc : l.get? (k + 1) = some (Char.ofNat 10)
      · rw [lastNLAux, if_pos hc]
        exact_mod_cast hj
      · rw [lastNLAux, if_neg hc]
        rcases Nat.lt_or_ge j (k + 1) with hlt | hge
        · exact ih j (by omega) hg
        · have hje : j = k + 1 := by omega
          subst hje
          exact absurd hg hc

/-- lastIndexOf is bounded by the clamped search start. -/
theorem lastIndexOfNL_le_min (l : Text) (e : Nat) :
    lastIndexOfNL l e ≤ ((min e (l.length - 1) : Nat) : Int) :=
  lastNLAux_le l _

/-- A found lastIndexOf position holds a line break. -/
theorem lastIndexOfNL_get (l : Text) (e : Nat) (h : 0 ≤ lastIndexOfNL l e) :
    l.get? (lastIndexOfNL l e).toNat = some (Char.ofNat 10) :=
  lastNLAux_get l _ h

/-- lastIndexOf dominates every line break index at or before the search
start. -/
theorem lastIndexOfNL_maximal (l : Text) (e j : Nat) (hj : j ≤ e) (hjl : j < l.length)
    (hg : l.get? j = some (Char.ofNat 10)) : (j : Int) ≤ lastIndexOfNL l e :=
  lastNLAux_maximal l _ j (Nat.le_min.mpr ⟨hj, by omega⟩) hg

/-- A found lastIndexOf position is inside the text. -/
theorem lastIndexOfNL_lt_length (l : Text) (e : Nat) (h : 0 ≤ lastIndexOfNL l e) :
    (lastIndexOfNL l e).toNat < l.length := by
  have hg := lastIndexOfNL_get l e h
  by_contra hge
  push_neg at hge
  rw [List.get?_eq_none.mpr hge] at hg
  cases hg

/-- The chosen segment boundary strictly advances and never exceeds the hard
offset or the end of the text. -/
theorem segEnd_bounds (html : Text) (M start : Nat) (hM : 1 ≤ M)
    (hs : start < html.length) :
    start < segEnd html M start ∧ segEnd html M start ≤ min (start + M) html.length := by
  unfold segEnd
  by_cases hb : (start : Int) + 200 < lastIndexOfNL html (min (start + M) html.length)
  · rw [if_pos hb]
    have hle := lastIndexOfNL_le_min html (min (start + M) html.length)
    constructor
    · omega
    · omega
  · rw [if_neg hb]
    exact ⟨by omega, le_refl _⟩

/-- Length of a slice with an in-range end offset. -/
theorem sliceTxt_length (l : Text) (s e : Nat) (he : e ≤ l.length) :
    (sliceTxt l s e).length = e - s := by
  unfold sliceTxt
  rw [List.length_drop, List.length_take]
  omega

/-- A slice followed by the rest of the text from its end offset is the rest
of the text from its start offset. -/
theorem sliceTxt_append_drop (l : Text) (s e : Nat) (hse : s ≤ e) (he : e ≤ l.length) :
    sliceTxt l s e ++ l.drop e = l.drop s := by
  have h1 : l.drop s = (l.take e ++ l.drop e).drop s := by rw [List.take_append_drop]
  rw [h1, List.drop_append_eq_append_drop, List.length_take, Nat.min_eq_left he,
      Nat.sub_eq_zero_of_le hse, List.drop_zero]
  rfl

/-- The chunk loop, given enough fuel, produces chunks that concatenate to
the unprocessed tail and each respect the size limit. -/
theorem chunkLoop_spec (html : Text) (M : Nat) (hM : 1 ≤ M) :
    ∀ fuel start, start ≤ html.length → html.length - start ≤ fuel →
      (chunkLoop html M start fuel).flatten = html.drop start ∧
      ∀ c ∈ chunkLoop html M start fuel, c.length ≤ M := by
  intro fuel
  induction fuel with
  | zero =>
      intro start hs hf
      have hse : start = html.length := by omega
      subst hse
      constructor
      · rw [List.drop_length]
        rfl
      · intro c hc
        cases hc
  | succ fuel ih =>
      intro start hs hf
      by_cases hlt : start < html.length
      · have hseg := segEnd_bounds html M start hM hlt
        have he1 : start < segEnd html M start := hseg.1
        have he2 : segEnd html M start ≤ html.length :=
          le_trans hseg.2 (Nat.min_le_right _ _)
        have he3 : segEnd html M start ≤ start + M :=
          le_trans hseg.2 (Nat.min_le_left _ _)
        have hrec := ih (segEnd html M start) (by omega) (by omega)
        have hunfold : chunkLoop html M start (fuel + 1) =
            sliceTxt html start (segEnd html M start) ::
              chunkLoop html M (segEnd html M start) fuel := by
          rw [chunkLoop, if_pos hlt]
        rw [hunfold]
        constructor
        · rw [List.flatten_cons, hrec.1,
            sliceTxt_append_drop html start (segEnd html M start) (le_of_lt he1) he2]
        · intro c hc
          rw [List.mem_cons] at hc
          rcases hc with rfl | hc
          · rw [sliceTxt_length html start (segEnd html M start) he2]
            omega
          · exact hrec.2 c hc
      · have hse : start = html.length := by omega
        subst hse
        have hunfold : chunkLoop html M html.length (fuel + 1) = [] := by
          rw [chunkLoop, if_neg hlt]
        rw [hunfold]
        constructor
        · rw [List.drop_length]
          rfl
        · intro c hc
          cases hc

/-- C8: for every text and every positive maximum segment size M,
concatenating the chunks produced by chunkForTelegram in order yields the
original text exactly, and every chunk has length at most M. -/
theorem c8_chunk_roundtrip (html : Text) (M : Nat) (hM : 1 ≤ M) :
    (chunkForTelegram html M).flatten = html ∧
    ∀ c ∈ chunkForTelegram html M, c.length ≤ M := by
  unfold chunkForTelegram
  by_cases hle : html.length ≤ M
  · rw [if_pos hle]
    constructor
    · rw [List.flatten_cons, List.flatten_nil, List.append_nil]
    · intro c hc
      rw [List.mem_singleton] at hc
      subst hc
      exact hle
  · rw [if_neg hle]
    have hmain := chunkLoop_spec html M hM html.length 0 (by omega) (by omega)
    rw [List.drop_zero] at hmain
    exact hmain

/-- C8: for every text and every positive maximum segment size M,
concatenating the chunks produced by chunkForTelegram in order yields the
original text exactly, and every chunk has length at most M. -/
theorem c8_chunk_roundtrip_witness :
    1 ≤ 1 ∧
    ((chunkForTelegram (String.toList "ab") 1).flatten = String.toList "ab" ∧
     ∀ c ∈ chunkForTelegram (String.toList "ab") 1, c.length ≤ 1) :=
  ⟨by decide, c8_chunk_roundtrip (String.toList "ab") 1 (by decide)⟩


/-- Iterating the boundary map one step further equals iterating from the
first boundary. -/
theorem iterSeg_shift (html : Text) (M start : Nat) :
    ∀ k, iterSeg html M start (k + 1) = iterSeg html M (segEnd html M start) k := by
  intro k
  induction k with
  | zero => rfl
  | succ k ih =>
      show segEnd html M (iterSeg html M start (k + 1)) = _
      rw [ih]
      rfl

/-- Past the end of the text the boundary map is the text length. -/
theorem segEnd_of_ge (html : Text) (M s : Nat) (hs : html.length ≤ s) :
    segEnd html M s = html.length := by
  unfold segEnd
  have hle := lastIndexOfNL_le_min html (min (s + M) html.length)
  rw [if_neg (by omega)]
  omega

/-- If a later iterated boundary is still inside the text, so is the
previous one. -/
theorem iterSeg_lt_of_succ_lt (html : Text) (M start : Nat) (k : Nat)
    (h : iterSeg html M start (k + 1) < html.length) :
    iterSeg html M start k < html.length := by
  by_contra hge
  push_neg at hge
  have heq := segEnd_of_ge html M (iterSeg html M start k) hge
  have hh : iterSeg html M start (k + 1) = segEnd html M (iterSeg html M start k) := rfl
  rw [hh, heq] at h
  exact lt_irrefl _ h

/-- If a later iterated boundary is still inside the text, so is every
earlier one. -/
theorem iterSeg_lt_of_le (html : Text) (M start : Nat) :
    ∀ k j, j ≤ k → iterSeg html M start k < html.length →
      iterSeg html M start j < html.length := by
  intro k
  induction k with
  | zero =>
      intro j hj h
      have hj0 : j = 0 := by omega
      subst hj0
      exact h
  | succ k ih =>
      intro j hj h
      have hk := iterSeg_lt_of_succ_lt html M start k h
      rcases Nat.lt_or_ge j (k + 1) with hlt | hge
      · exact ih j (by omega) hk
      · have hje : j = k + 1 := by omega
        subst hje
        exact h

/-- The k-th chunk of the loop is the slice between the k-th and the next
iterated boundary. -/
theorem chunkLoop_get (html : Text) (M : Nat) (hM : 1 ≤ M) :
    ∀ k fuel start, start < html.length → html.length - start ≤ fuel →
      iterSeg html M start k < html.length →
      (chunkLoop html M start fuel).get? k =
        some (sliceTxt html (iterSeg html M start k) (iterSeg html M start (k + 1))) := by
  intro k
  induction k with
  | zero =>
      intro fuel start hs hf hk
      obtain ⟨fuel', rfl⟩ : ∃ f, fuel = f + 1 := ⟨fuel - 1, by omega⟩
      rw [chunkLoop, if_pos hs]
      rfl
  | succ k ih =>
      intro fuel start hs hf hk
      obtain ⟨fuel', rfl⟩ : ∃ f, fuel = f + 1 := ⟨fuel - 1, by omega⟩
      rw [chunkLoop, if_pos hs]
      have hseg := segEnd_bounds html M start hM hs
      have hseglt : segEnd html M start < html.length := by
        have h1 : iterSeg html M start 1 < html.length :=
          iterSeg_lt_of_le html M start (k + 1) 1 (by omega) hk
        exact h1
      have hkk : iterSeg html M (segEnd html M start) k < html.length := by
        rw [← iterSeg_shift html M start k]
        exact hk
      have hrec := ih fuel' (segEnd html M start) hseglt (by omega) hkk
      show (chunkLoop html M (segEnd html M start) fuel').get? k = _
      rw [hrec, ← iterSeg_shift html M start k, ← iterSeg_shift html M start (k + 1)]

/-- lastIndexOf computes exactly the last line break position described by
the spec predicate. -/
theorem isLastBreak_eq (html : Text) (e i : Nat) (h : IsLastBreakLE html e i) :
    lastIndexOfNL html e = (i : Int) := by
  obtain ⟨hg, hle, hmax⟩ := h
  have hil : i < html.length := by
    by_contra hge
    push_neg at hge
    rw [List.get?_eq_none.mpr hge] at hg
    cases hg
  have h1 : (i : Int) ≤ lastIndexOfNL html e := lastIndexOfNL_maximal html e i hle hil hg
  have hnn : 0 ≤ lastIndexOfNL html e := le_trans (by positivity) h1
  have h2 := lastIndexOfNL_get html e hnn
  have hb := lastIndexOfNL_le_min html e
  have h4 := hmax (lastIndexOfNL html e).toNat (by omega) h2
  omega

/-- When the last break before the hard offset lies strictly more than 200
characters into the segment, the boundary is that break. -/
theorem segEnd_break (html : Text) (M start i : Nat)
    (hbr : IsLastBreakLE html (min (start + M) html.length) i)
    (hfar : start + 200 < i) :
    segEnd html M start = i := by
  have heq := isLastBreak_eq html (min (start + M) html.length) i hbr
  unfold segEnd
  rw [heq, if_pos (by exact_mod_cast hfar)]
  omega

/-- When every last break candidate is at most 200 characters into the
segment, or there is none, the boundary is the hard offset. -/
theorem segEnd_noBreak (html : Text) (M start : Nat)
    (hno : ∀ i, IsLastBreakLE html (min (start + M) html.length) i → i ≤ start + 200) :
    segEnd html M start = min (start + M) html.length := by
  unfold segEnd
  by_cases hnn : 0 ≤ lastIndexOfNL html (min (start + M) html.length)
  · have hg := lastIndexOfNL_get html (min (start + M) html.length) hnn
    have hlt := lastIndexOfNL_lt_length html (min (start + M) html.length) hnn
    have hle := lastIndexOfNL_le_min html (min (start + M) html.length)
    have hb : IsLastBreakLE html (min (start + M) html.length)
        (lastIndexOfNL html (min (start + M) html.length)).toNat := by
      refine ⟨hg, by omega, ?_⟩
      intro j hj hgj
      have hjl : j < html.length := by
        by_contra hge
        push_neg at hge
        rw [List.get?_eq_none.mpr hge] at hgj
        cases hgj
      have := lastIndexOfNL_maximal html (min (start + M) html.length) j hj hjl hgj
      omega
    have hcap := hno _ hb
    rw [if_neg (by omega)]
  · push_neg at hnn
    rw [if_neg (by omega)]

/-- C9 (amended): for a text longer than M, the k-th chunk spans from the
k-th iterated boundary to the next one; that next boundary is the last line
break at or before the hard offset whenever that break lies strictly more
than 200 characters into the segment, and the hard offset, capped at the end
of the text, whenever no break lies more than 200 characters in. -/
theorem c9_boundary (html : Text) (M k : Nat) (hM : 1 ≤ M) (hlong : M < html.length)
    (hk : startAt html M k < html.length) :
    (chunkForTelegram html M).get? k =
      some (sliceTxt html (startAt html M k) (startAt html M (k + 1))) ∧
    (∀ i, IsLastBreakLE html (min (startAt html M k + M) html.length) i →
       startAt html M k + 200 < i → startAt html M (k + 1) = i) ∧
    ((∀ i, IsLastBreakLE html (min (startAt html M k + M) html.length) i →
       i ≤ startAt html M k + 200) →
     startAt html M (k + 1) = min (startAt html M k + M) html.length) := by
  have hchunk : chunkForTelegram html M = chunkLoop html M 0 html.length := by
    unfold chunkForTelegram
    rw [if_neg (by omega)]
  refine ⟨?_, ?_, ?_⟩
  · rw [hchunk]
    exact chunkLoop_get html M hM k html.length 0 (by omega) (by omega) hk
  · intro i hbr hfar
    exact segEnd_break html M (startAt html M k) i hbr hfar
  · intro hno
    exact segEnd_noBreak html M (startAt html M k) hno

/-- A 260-character text whose only line break sits exactly 200 characters
in. -/
def ex9 : Text := List.replicate 200 'a' ++ Char.ofNat 10 :: List.replicate 59 'a'

/-- C9 counterexample: in ex9 with M 250 the last break before the hard
offset is exactly 200 characters into the segment, which the claim words
(not less than 200) accept as a break split, yet the code splits at the hard
offset 250, refuting the claim as stated. -/
theorem c9_counterexample :
    ex9.length = 260 ∧
    IsLastBreakLE ex9 (min (0 + 250) ex9.length) 200 ∧
    ¬ (200 : Nat) < 0 + 200 ∧
    segEnd ex9 250 0 = 250 ∧
    (chunkForTelegram ex9 250).get? 0 = some (sliceTxt ex9 0 250) ∧
    (250 : Nat) ≠ 200 := by
  refine ⟨by decide, ⟨by decide, by decide, ?_⟩, by decide, by decide, by decide, by decide⟩
  intro j hj hgj
  have hjl : j < ex9.length := by
    by_contra hge
    push_neg at hge
    rw [List.get?_eq_none.mpr hge] at hgj
    cases hgj
  have hmax := lastIndexOfNL_maximal ex9 (min (0 + 250) ex9.length) j hj hjl hgj
  have hval : lastIndexOfNL ex9 (min (0 + 250) ex9.length) = 200 := by decide
  rw [hval] at hmax
  exact_mod_cast hmax


/-- A 321-character text with a line break 220 characters in, giving a break
split. -/
def ex9b : Text := List.replicate 220 'a' ++ Char.ofNat 10 :: List.replicate 100 'a'

/-- Witness for C9 on ex9b with limit 250 at chunk index 0. -/
theorem c9_witness :
    (1 ≤ 250 ∧ 250 < ex9b.length ∧ startAt ex9b 250 0 < ex9b.length) ∧
    ((chunkForTelegram ex9b 250).get? 0 =
       some (sliceTxt ex9b (startAt ex9b 250 0) (startAt ex9b 250 1)) ∧
     (∀ i, IsLastBreakLE ex9b (min (startAt ex9b 250 0 + 250) ex9b.length) i →
        startAt ex9b 250 0 + 200 < i → startAt ex9b 250 1 = i) ∧
     ((∀ i, IsLastBreakLE ex9b (min (startAt ex9b 250 0 + 250) ex9b.length) i →
        i ≤ startAt ex9b 250 0 + 200) →
      startAt ex9b 250 1 = min (startAt ex9b 250 0 + 250) ex9b.length)) :=
  ⟨⟨by decide, by decide, by decide⟩,
   c9_boundary ex9b 250 0 (by decide) (by decide) (by decide)⟩

end CryptoAutomation
